import Mathlib

/-
Verification of the inquiry-split spreadsheet pipeline.

The development embeds the algorithmic core of the four Python scripts:
  * `extact2-提取历史已拆分.py` — value harvesting into the knowledge base
    (header detection, column classification, per-column value cleaning,
    the `标准` subsumption rule, multi-sheet file processing);
  * `extact2-自动拆分.py`      — free-text record decomposition
    (tokenization, per-token classification against the knowledge base);
  * `extract1-可用.py`          — its alternative header-row detector.

Cells are embedded as a three-valued type (missing / text / numeric), tables
as lists of rows.  Python `set`s are embedded as duplicate-free lists in
first-insertion order, Python `dict`s as insertion-ordered association
lists.  String primitives (`strip`, `split`, `lower`, `in`, `replace`) are
implemented on character lists so that every definition evaluates inside the
kernel.  External library behaviour (`thefuzz` scoring, Python
`int()`/`float()` parsing) is modelled explicitly; the fuzzy scorer is a
parameter of the decomposer, and the concrete score tables used in the
counterexamples carry the genuine `token_sort_ratio` values of the pairs
involved.
-/

namespace InquirySplit

/-- A spreadsheet cell: missing (pandas `NaN`), text, or a numeric cell.
A numeric cell carries its Python `str()` rendering (the numeric value itself
is never used by the embedded code paths). -/
inductive Cell where
  | missing
  | text (s : String)
  | num (render : String)
deriving DecidableEq, Repr

/-- A table is a list of rows; a row is a list of cells. -/
abbrev Table := List (List Cell)

/-- `pd.isna` on a cell. -/
def Cell.isMissing : Cell → Bool
  | .missing => true
  | _ => false

/-- `isinstance(cell, str)`. -/
def Cell.isText : Cell → Bool
  | .text _ => true
  | _ => false

/-- `pd.isna(c) or c == ''` (a numeric cell never equals the empty string). -/
def Cell.isBlank : Cell → Bool
  | .missing => true
  | .text s => s == ""
  | .num _ => false

/-- Python `str()` of a cell (`str(nan) = "nan"`, unreachable in the embedded
paths, is included for totality). -/
def cellStr : Cell → String
  | .missing => "nan"
  | .text s => s
  | .num r => r

/-- `row.dropna()`: the non-missing cells of a row. -/
def dropna (r : List Cell) : List Cell :=
  r.filter (fun c => !c.isMissing)

/-! ## String primitives, implemented on character lists -/

/-- Boolean prefix test on character lists. -/
def isPrefixList : List Char → List Char → Bool
  | [], _ => true
  | _ :: _, [] => false
  | a :: as, b :: bs => a == b && isPrefixList as bs

/-- Boolean contiguous-sublist test on character lists. -/
def isInfixList (n : List Char) (h : List Char) : Bool :=
  match h with
  | [] => n.isEmpty
  | _ :: t => isPrefixList n h || isInfixList n t

/-- Python `needle in hay` on strings: contiguous substring test. -/
def strContains (hay needle : String) : Bool :=
  isInfixList needle.toList hay.toList

/-- Python whitespace as stripped by `str.strip()` (the ASCII portion, which
covers every input considered here). -/
def isPyWs (c : Char) : Bool :=
  c == ' ' || c == '\t' || c == '\n' || c == '\r' || c == '\x0b' || c == '\x0c'

/-- Python `str.strip()`. -/
def pyStrip (s : String) : String :=
  String.mk (((s.toList.dropWhile isPyWs).reverse.dropWhile isPyWs).reverse)

/-- Python `str.lower()` (ASCII case mapping; the CJK characters appearing
here have no case). -/
def pyLower (s : String) : String :=
  String.mk (s.toList.map Char.toLower)

/-- Python `s.replace("\n", " ")` — the pattern is a single character, so
this is a character map. -/
def replaceNl (s : String) : String :=
  String.mk (s.toList.map (fun c => if c = '\n' then ' ' else c))

/-- `s.split(sep)` on character lists: keeps empty pieces, `[""]` on the
empty string, exactly like Python `str.split` with an explicit separator. -/
def splitCharList (sep : Char) : List Char → List (List Char)
  | [] => [[]]
  | c :: t =>
    if c = sep then [] :: splitCharList sep t
    else
      match splitCharList sep t with
      | [] => [[c]]
      | p :: ps => (c :: p) :: ps

/-- Python `s.split(sep)` for a single-character separator. -/
def pySplit (s : String) (sep : Char) : List String :=
  (splitCharList sep s.toList).map String.mk

/-- `contains_chinese`: `re.search('[一-鿿]', text)`. -/
def containsChinese (s : String) : Bool :=
  s.toList.any (fun c => 0x4e00 ≤ c.toNat && c.toNat ≤ 0x9fff)

/-- Models Python `int(s)` acceptance, restricted to the forms the pipeline
meets: optional surrounding whitespace, an optional sign, then one or more
ASCII digits (digit-separator underscores are not modelled). -/
def pyIntOk (s : String) : Bool :=
  let cs := (pyStrip s).toList
  let cs := match cs with
    | '+' :: t => t
    | '-' :: t => t
    | t => t
  !cs.isEmpty && cs.all Char.isDigit

/-- Models Python `float(s)` acceptance, restricted to plain decimal literals
(optional surrounding whitespace, optional sign, digits with an optional
decimal point; exponents and `inf`/`nan` spellings are not modelled — no
input considered here uses them). -/
def pyFloatOk (s : String) : Bool :=
  let cs := (pyStrip s).toList
  let cs := match cs with
    | '+' :: t => t
    | '-' :: t => t
    | t => t
  let ds := cs.takeWhile Char.isDigit
  let rest := cs.dropWhile Char.isDigit
  match rest with
  | [] => !ds.isEmpty
  | '.' :: t => (!ds.isEmpty || !t.isEmpty) && t.all Char.isDigit
  | _ => false

/-- The numeric-looking test of `extract1-可用.py`:
`re.match(r'^-?\d+\.?\d*$', str_value)`. -/
def numRegex (s : String) : Bool :=
  let cs := match s.toList with
    | '-' :: t => t
    | t => t
  let ds := cs.takeWhile Char.isDigit
  let rest := cs.dropWhile Char.isDigit
  !ds.isEmpty &&
    (match rest with
     | [] => true
     | '.' :: t => t.all Char.isDigit
     | _ => false)

/-! ## Header-row detection (`extact2` variants)

`ExcelColumnExtractor.is_header_row` / `find_header_row`, identical in
`extact2-自动拆分.py` and `extact2-提取历史已拆分.py`. -/

/-- `is_header_row(df_slice, row_index)` of the `extact2` scripts. -/
def isHeaderRow (slice : Table) (i : Nat) : Bool :=
  if i + 1 ≥ slice.length then false
  else
    let cur := slice.getD i []
    let nxt := slice.getD (i + 1) []
    let ne := dropna cur
    if ne.length = 0 then false
    else
      -- `string_cells / len(non_empty) > 0.5`  ⇔  `2 * string_cells > len(non_empty)`
      decide (2 * (ne.filter Cell.isText).length > ne.length)
        && decide ((dropna nxt).length > 0)

/-- `find_header_row(df)` of the `extact2` scripts: scan the first
`min(10, len(df))` rows, returning the first qualifying index, else 0. -/
def findHeaderRow (t : Table) : Nat :=
  let checkRows := min 10 t.length
  match (List.range (checkRows - 1)).find? (fun i => isHeaderRow (t.take checkRows) i) with
  | some i => i
  | none => 0

/-! ## Header-row detection (`extract1-可用.py` variant) -/

/-- The per-cell "counts as a string" test of `extract1-可用.py`:
a text cell, or any other non-missing cell whose stripped `str()` form is
non-empty and does not match `^-?\d+\.?\d*$`. -/
def cellStringy1 : Cell → Bool
  | .text _ => true
  | .missing => false
  | .num r =>
    let sv := pyStrip r
    !(sv == "") && !numRegex sv

/-- `is_header_row(df, row_index)` of `extract1-可用.py` (operates on the full
table, not a slice). -/
def isHeaderRow1 (t : Table) (i : Nat) : Bool :=
  if i + 1 ≥ t.length then false
  else
    let cur := t.getD i []
    let nxt := t.getD (i + 1) []
    let ne := dropna cur
    if ne.length = 0 then false
    else
      decide (2 * (ne.filter cellStringy1).length > ne.length)
        && decide ((dropna nxt).length > 0)

/-- `find_header_row(df)` of `extract1-可用.py`:
`for i in range(min(10, len(df) - 1))`. -/
def findHeaderRow1 (t : Table) : Nat :=
  match (List.range (min 10 (t.length - 1))).find? (fun i => isHeaderRow1 t i) with
  | some i => i
  | none => 0

/-- The header-location contract exactly as the claim states it (spec-derived,
for comparison with the implementations): within the first
`min(10, row_count)` rows, excluding the window's last row, return the first
index whose non-empty cells are more than half text-typed and whose following
row has at least one non-missing cell; otherwise 0. -/
def locateSpec (t : Table) : Nat :=
  let w := min 10 t.length
  match (List.range (w - 1)).find? (fun i =>
      decide (2 * ((dropna (t.getD i [])).filter Cell.isText).length
          > (dropna (t.getD i [])).length)
        && decide ((dropna (t.getD (i + 1) [])).length > 0)) with
  | some i => i
  | none => 0

/-! ## Column naming and classification -/

/-- `process_header(header_row, first_data_row)` of the `extact2` scripts. -/
def processHeader (headerRow firstData : List Cell) : List String :=
  headerRow.enum.map (fun p =>
    if p.2.isBlank then
      match firstData.get? p.1 with
      | some c => if !c.isMissing then cellStr c else "Column_" ++ toString p.1
      | none => "Column_" ++ toString p.1
    else cellStr p.2)

/-- `should_skip_column` of `extact2-自动拆分.py`: blank names are *not*
skipped; otherwise skip iff some keyword occurs (case-insensitively) in the
name. -/
def shouldSkipColumnA (keywords : List String) (name : String) : Bool :=
  if name = "" then false
  else keywords.any (fun k => strContains (pyLower name) (pyLower k))

/-- `should_skip_column` of `extact2-提取历史已拆分.py`: blank names are *not*
skipped; otherwise skip iff some keyword occurs in the name, or the name
contains no Chinese character. -/
def shouldSkipColumnH (keywords : List String) (name : String) : Bool :=
  if name = "" then false
  else if keywords.any (fun k => strContains (pyLower name) (pyLower k)) then true
  else if !containsChinese name then true
  else false

/-- `is_in_white_list` (identical in both `extact2` scripts). -/
def isInWhiteList (wl : List String) (name : String) : Bool :=
  if name = "" then false
  else wl.any (fun k => strContains (pyLower name) (pyLower k))

/-! ## KnowledgeBase: `self.all_data : Dict[str, Set[str]]`

Python dictionaries are insertion-ordered; we model them as association
lists.  Python `set`s are modelled as duplicate-free lists in first-insertion
order (iteration order of a CPython set is unspecified; none of the embedded
code depends on it, and the pipeline sorts before persisting). -/

/-- A harvested value set. -/
abbrev VSet := List String

/-- `s.add(x)`: insert if absent. -/
def sinsert (x : String) (s : VSet) : VSet :=
  if x ∈ s then s else s ++ [x]

/-- `s.update(t)`: insert every element of `t`. -/
def sunion (s t : VSet) : VSet :=
  t.foldl (fun acc x => sinsert x acc) s

/-- The knowledge base: insertion-ordered map column name → value set. -/
abbrev KB := List (String × VSet)

/-- Dictionary lookup; a missing key yields the empty set (the code only
reads keys it has created). -/
def kbGet : KB → String → VSet
  | [], _ => []
  | (k, v) :: t, n => if k = n then v else kbGet t n

/-- `col_name in self.all_data`. -/
def kbHasKey : KB → String → Bool
  | [], _ => false
  | (k, _) :: t, n => if k = n then true else kbHasKey t n

/-- `self.all_data[col_name] = v`: replace the first binding of the key, or
append a fresh binding (Python dict insertion order). -/
def kbSet : KB → String → VSet → KB
  | [], n, v => [(n, v)]
  | (k, w) :: t, n, v => if k = n then (n, v) :: t else (k, w) :: kbSet t n v

/-! ## Value harvesting (`extact2-提取历史已拆分.py`) -/

/-- The per-cell cleaning loop of `process_excel_file` (lines 212–230):
numeric cells are dropped; text that parses as a Python number
(`float(item) if '.' in item else int(item)`) is dropped; the survivors are
stripped, and dropped again if they contain Chinese or equal a lone dash. -/
def processColumnCells (cells : List Cell) : VSet :=
  cells.foldl (fun acc c =>
    match c with
    | .missing => acc
    | .num _ => acc
    | .text s =>
      if (if strContains s "." then pyFloatOk s else pyIntOk s) then acc
      else
        let s := pyStrip s
        if containsChinese s then acc
        else if s = "-" then acc
        else sinsert s acc) []

/-- Number of columns of a data frame (`data_df.shape[1]`); our tables are
read as rectangular grids padded with missing cells, so the width is the
longest row. -/
def tableWidth (t : Table) : Nat :=
  t.foldr (fun r w => max r.length w) 0

/-- `data_df.iloc[:, col_idx]`: column `j`, padded with missing cells. -/
def colCells (t : Table) (j : Nat) : List Cell :=
  t.map (fun r => r.getD j Cell.missing)

/-- Merging one cleaned column batch into the knowledge base
(`process_excel_file` lines 232–243): ensure the key exists; for the `标准`
column, drop every new value that contains an existing canonical value as a
substring (remove-on-first-hit over a copy, i.e. a filter against the
already-stored set); then set-union the survivors into the stored set. -/
def mergeIntoKB (kb : KB) (name : String) (pdata : VSet) : KB :=
  let kb1 := if kbHasKey kb name then kb else kbSet kb name []
  let pdata' :=
    if name = "标准" then
      pdata.filter (fun v => !(kbGet kb1 "标准").any (fun e => strContains v e))
    else pdata
  kbSet kb1 name (sunion (kbGet kb1 name) pdata')

/-- One merge step, as consumed by fold-based reasoning. -/
def mergeStep (kb : KB) (s : String × VSet) : KB :=
  mergeIntoKB kb s.1 s.2

/-- The survivors of a batch merged into column `n` over knowledge base `kb`:
for the `标准` column the batch values not containing any stored canonical
value, otherwise the whole batch. -/
def survivors (kb : KB) (n : String) (p : VSet) : VSet :=
  if n = "标准" then
    p.filter (fun v => !(kbGet kb "标准").any (fun e => strContains v e))
  else p

/-- A merge step `(n, p)` is absorbed by `kb`: the column exists and every
batch value is either already stored or killed by the `标准` containment
filter.  Once a step has run, it stays absorbed by every later knowledge
base, which is what makes a second pass over the same table a no-op. -/
def Absorbed (kb : KB) (s : String × VSet) : Prop :=
  kbHasKey kb s.1 = true ∧
    ∀ v ∈ s.2, v ∈ kbGet kb s.1 ∨
      (s.1 = "标准" ∧ ∃ e ∈ kbGet kb "标准", strContains v e = true)

/-- The per-column harvesting loop of `process_excel_file` (lines 199–243):
skip out-of-range columns, skip columns failing the skip-list/Chinese test or
the whitelist test, clean the remaining columns' cells and merge them. -/
def harvestColumns (kws wl : List String) (names : List String) (dataDf : Table)
    (kb : KB) : KB :=
  names.enum.foldl (fun kb p =>
    if tableWidth dataDf ≤ p.1 then kb
    else if shouldSkipColumnH kws p.2 then kb
    else if !isInWhiteList wl p.2 then kb
    else mergeIntoKB kb p.2 (processColumnCells (colCells dataDf p.1))) kb

/-- The sheet loop of `process_excel_file` (lines 169–243), over the list of
sheet indices still to process.  Faithful to the source, including its
irregularities: an empty sheet or a sheet with no data rows executes `return`,
abandoning the *whole file* (not just the sheet); and the data frame is
re-read from sheet 0 (`pd.read_excel(file_path, sheet_name=0, ...)` on line
195) even while headers come from sheet `i`. -/
def goSheets (kws wl : List String) (sheets : List Table) : List Nat → KB → KB
  | [], kb => kb
  | i :: rest, kb =>
    let df := sheets.getD i []
    if df.isEmpty then kb
    else
      let hidx := findHeaderRow df
      if df.length ≤ hidx + 1 then kb
      else
        let names := processHeader (df.getD hidx []) (df.getD (hidx + 1) [])
        let dataDf := (sheets.getD 0 []).drop (hidx + 1)
        goSheets kws wl sheets rest (harvestColumns kws wl names dataDf kb)

/-- `process_excel_file`: iterate the sheet loop over all sheet indices. -/
def processExcelFileH (kws wl : List String) (sheets : List Table) (kb : KB) : KB :=
  goSheets kws wl sheets (List.range sheets.length) kb

/-- The merge-step sequence produced by the per-column loop on one sheet;
used to factor `harvestColumns` as a fold of `mergeStep` (the loop's guards
do not depend on the knowledge base). -/
def colSteps (kws wl : List String) (names : List String) (dataDf : Table) :
    List (String × VSet) :=
  names.enum.filterMap (fun p =>
    if tableWidth dataDf ≤ p.1 then none
    else if shouldSkipColumnH kws p.2 then none
    else if !isInWhiteList wl p.2 then none
    else some (p.2, processColumnCells (colCells dataDf p.1)))

/-- The merge-step sequence of the whole sheet loop. -/
def goSheetSteps (kws wl : List String) (sheets : List Table) :
    List Nat → List (String × VSet)
  | [] => []
  | i :: rest =>
    let df := sheets.getD i []
    if df.isEmpty then []
    else
      let hidx := findHeaderRow df
      if df.length ≤ hidx + 1 then []
      else
        colSteps kws wl (processHeader (df.getD hidx []) (df.getD (hidx + 1) []))
            ((sheets.getD 0 []).drop (hidx + 1))
          ++ goSheetSteps kws wl sheets rest

/-- `process_folder`'s finalization (lines 281–283): sort each column's value
set and drop columns whose list is empty. -/
def finalizeKB (kb : KB) : List (String × List String) :=
  (kb.map (fun p => (p.1, p.2.mergeSort (· ≤ ·)))).filter (fun p => !p.2.isEmpty)

/-! ## Record decomposition (`extact2-自动拆分.py`, `process_folder` lines 264–309)

The decomposer consumes the knowledge base loaded from JSON
(`orign_map_data`: an ordered map column name → list of candidate values) and
one free-text cell value, and produces one structured record (`row_data`).
The `thefuzz` scorer (`fuzz.token_sort_ratio`, 0–100) is an external library
and is passed as a parameter `score`. -/

/-- A structured record: insertion-ordered map field name → string value. -/
abbrev RowMap := List (String × String)

/-- `row_data.get(k)` (all keys are pre-initialized by the record setup). -/
def rowGet : RowMap → String → String
  | [], _ => ""
  | (k, v) :: t, n => if k = n then v else rowGet t n

/-- `row_data[k] = v`. -/
def rowSet : RowMap → String → String → RowMap
  | [], n, v => [(n, v)]
  | (k, w) :: t, n, v => if k = n then (n, v) :: t else (k, w) :: rowSet t n v

/-- Lines 269–271: split by comma and by semicolon, keep whichever produced
more pieces; `split1 if len(split1) > len(split2) else split2`, so a tie
keeps the semicolon split. -/
def rawSplit (s : String) : List String :=
  let split1 := pySplit s ','
  let split2 := pySplit s ';'
  if split1.length > split2.length then split1 else split2

/-- Line 272: strip each piece and replace embedded newlines by spaces. -/
def tokenize (s : String) : List String :=
  (rawSplit s).map (fun t => replaceNl (pyStrip t))

/-- `f"{old},{tok}"` accumulation: `tok` if the field is still empty. -/
def joinTok (old tok : String) : String :=
  if old = "" then tok else old ++ "," ++ tok

/-- The best score `process.extractBests(tok, values, scorer=...,
score_cutoff=80, limit=1)` would report, before the cutoff is applied:
the maximum score of `tok` against the candidate values (0 for an empty
list).  `extractBests` returns a non-empty list exactly when this maximum
reaches the cutoff 80, and its top entry carries this maximum. -/
def bestScore (score : String → String → Nat) (tok : String)
    (values : List String) : Nat :=
  values.foldl (fun b v => max b (score tok v)) 0

/-- State of the per-token column loop: the record being built, the
`is_match` flag, and `best_match_score` (initialized to 0 and — in the
source — never updated afterwards). -/
structure RowSt where
  row : RowMap
  matched : Bool
  best : Nat
deriving Repr

/-- `cur = "" or len(v) >= len(cur)` keeps `v`, else keeps `cur` — the
name-column update of line 289, applied only when `v.lower()` occurs in
the token. -/
def nameUpd (tok : String) (cur v : String) : String :=
  if strContains (pyLower tok) (pyLower v) then
    if cur = "" ∨ cur.length ≤ v.length then v else cur
  else cur

/-- One iteration of the inner column loop (lines 283–306) for token `tok`
against column `(name, values)`:
  * `名称`: substring matching keeping the longest accepted candidate, with
    *no* `continue` and without setting `is_match`;
  * `标准`/`材质`: first candidate occurring in the token marks the token
    matched and appends the token itself to the field, then `continue`;
  * otherwise (including `名称` again): fuzzy scoring with cutoff 80; the
    comparison is against `best_match_score`, which no branch ever updates,
    and a hit appends the token (for `名称`, overwrites the field with the
    token). -/
def stepCol (score : String → String → Nat) (tok : String) (st : RowSt)
    (col : String × List String) : RowSt :=
  let name := col.1
  let values := col.2
  let row :=
    if name = "名称" then
      values.foldl (fun r v => rowSet r name (nameUpd tok (rowGet r name) v)) st.row
    else st.row
  if name = "标准" ∨ name = "材质" then
    match values.find? (fun v => strContains (pyLower tok) (pyLower v)) with
    | some _ =>
      { row := rowSet row name (joinTok (rowGet row name) tok),
        matched := true, best := st.best }
    | none => { st with row := row }
  else
    let m := bestScore score tok values
    if 80 ≤ m ∧ st.best < m then
      { row := rowSet row name (if name = "名称" then tok else joinTok (rowGet row name) tok),
        matched := true, best := st.best }
    else { st with row := row }

/-- Processing of one token (lines 279–308): numeric, empty and lone-dash
tokens are skipped; otherwise the column loop runs with `is_match = False`
and `best_match_score = 0`, and an unmatched token is appended to the
remainder field `备注`. -/
def processToken (score : String → String → Nat) (kb : List (String × List String))
    (row : RowMap) (tok : String) : RowMap :=
  if pyFloatOk tok || tok == "" || tok == "-" then row
  else
    let st := kb.foldl (stepCol score tok) ⟨row, false, 0⟩
    if st.matched then st.row
    else rowSet st.row "备注" (joinTok (rowGet st.row "备注") tok)

/-- Record initialization (lines 273–278): `description` holds the original
cell text, every knowledge-base column and the remainder `备注` start empty. -/
def initRow (kb : List (String × List String)) (value : String) : RowMap :=
  ("description", value) :: kb.map (fun c => (c.1, "")) ++ [("备注", "")]

/-- `decompose`: build the structured record for one free-text cell value. -/
def decompose (score : String → String → Nat) (kb : List (String × List String))
    (value : String) : RowMap :=
  (tokenize value).foldl (processToken score kb) (initRow kb value)

/-! ## Concrete fixtures used by the theorems below

The score tables list the genuine `fuzz.token_sort_ratio` values of every
pair they mention (computed as `round(100 * 2*LCS / (len1+len2))` on the
lower-cased, token-sorted forms, the rounded indel ratio the library uses);
all unlisted pairs score 0, standing for pairs scoring below every cutoff. -/

/-- Scores for the C1 fixture: token `"alpha beta"` against
`"alpha beta"` (100), `"alpha betta"` (95) and `"alpha bexx"` (80). -/
def scoreC1 : String → String → Nat := fun t v =>
  if t = "alpha beta" && v = "alpha beta" then 100
  else if t = "alpha beta" && v = "alpha betta" then 95
  else if t = "alpha beta" && v = "alpha bexx" then 80
  else 0

/-- Three generic (non-designated) knowledge-base columns. -/
def kbC1 : List (String × List String) :=
  [("ColA", ["alpha beta"]), ("ColB", ["alpha betta"]), ("ColC", ["alpha bexx"])]

/-- Scores for the C8 fixture: `token_sort_ratio("Valve Special", "Valve")`
is 56 (token-sorted forms `"special valve"` vs `"valve"`). -/
def scoreC8 : String → String → Nat := fun t v =>
  if t = "Valve Special" && v = "Valve" then 56 else 0

/-- A knowledge base with only the designated name category. -/
def kbC8 : List (String × List String) := [("名称", ["Valve"])]

/-- Scores for the C10 fixture: `token_sort_ratio("Stainless Steel 316L", ·)`
is 86 for `"Stainless Steel"` (token-sorted `"316l stainless steel"` vs
`"stainless steel"`) and 40 for `"Steel"`. -/
def scoreC10 : String → String → Nat := fun t v =>
  if t = "Stainless Steel 316L" && v = "Stainless Steel" then 86
  else if t = "Stainless Steel 316L" && v = "Steel" then 40
  else 0

/-- The name category of the C10 fixture. -/
def kbC10 : List (String × List String) := [("名称", ["Steel", "Stainless Steel"])]

/-- A constant-zero scorer (every fuzzy comparison stays below the cutoff). -/
def scoreZero : String → String → Nat := fun _ _ => 0

/-- C3 fixture, sheet 0: header `材质`, one data row `AAA`. -/
def sheetC3a : Table := [[.text "材质"], [.text "AAA"]]

/-- C3 fixture, sheet 1: header `材质`, one data row `BBB`. -/
def sheetC3b : Table := [[.text "材质"], [.text "BBB"]]

/-- C5 fixture: a single sheet whose `标准` column carries `A312` and
`ASTM A312` in the same batch. -/
def sheetC5 : Table := [[.text "标准"], [.text "A312"], [.text "ASTM A312"]]

/-- C6 fixture: 12 rows; rows 0–8 are numeric, row 9 is all-text, rows 10–11
are numeric, so the only header-like row sits at index 9 — the last row of
the 10-row examination window. -/
def tableC6 : Table :=
  List.replicate 9 [Cell.num "1"] ++ [[Cell.text "hdr"]] ++ [[Cell.num "1"], [Cell.num "1"]]

/-! ## Association-list and set lemmas -/

theorem kbGet_kbSet_self (kb : KB) (n : String) (v : VSet) :
    kbGet (kbSet kb n v) n = v := by
  induction kb with
  | nil => simp [kbSet, kbGet]
  | cons p t ih =>
    obtain ⟨k, w⟩ := p
    by_cases h : k = n
    · simp [kbSet, kbGet, h]
    · simp [kbSet, kbGet, h, ih]

theorem kbGet_kbSet_ne (kb : KB) (n m : String) (v : VSet) (h : m ≠ n) :
    kbGet (kbSet kb n v) m = kbGet kb m := by
  have hnm : n ≠ m := Ne.symm h
  induction kb with
  | nil => simp [kbSet, kbGet, hnm]
  | cons p t ih =>
    obtain ⟨k, w⟩ := p
    by_cases hk : k = n
    · subst hk
      simp [kbSet, kbGet, hnm]
    · simp only [kbSet, if_neg hk, kbGet]
      by_cases hm : k = m
      · simp [hm]
      · simp [hm, ih]

theorem kbHasKey_kbSet_self (kb : KB) (n : String) (v : VSet) :
    kbHasKey (kbSet kb n v) n = true := by
  induction kb with
  | nil => simp [kbSet, kbHasKey]
  | cons p t ih =>
    obtain ⟨k, w⟩ := p
    by_cases h : k = n
    · simp [kbSet, kbHasKey, h]
    · simp [kbSet, kbHasKey, h, ih]

theorem kbHasKey_kbSet (kb : KB) (n m : String) (v : VSet)
    (h : kbHasKey kb m = true) : kbHasKey (kbSet kb n v) m = true := by
  induction kb with
  | nil => simp [kbHasKey] at h
  | cons p t ih =>
    obtain ⟨k, w⟩ := p
    simp only [kbHasKey] at h
    by_cases hm : k = m
    · subst hm
      by_cases hk : k = n
      · subst hk
        simp [kbSet, kbHasKey]
      · simp [kbSet, kbHasKey, hk]
    · rw [if_neg hm] at h
      by_cases hk : k = n
      · subst hk
        simp only [kbSet, if_pos rfl, kbHasKey, if_neg hm]
        exact h
      · simp only [kbSet, if_neg hk, kbHasKey, if_neg hm]
        exact ih h

theorem kbGet_eq_nil_of_not_hasKey (kb : KB) (n : String)
    (h : kbHasKey kb n = false) : kbGet kb n = [] := by
  induction kb with
  | nil => rfl
  | cons p t ih =>
    obtain ⟨k, w⟩ := p
    by_cases hk : k = n
    · simp [kbHasKey, hk] at h
    · simp only [kbHasKey, if_neg hk] at h
      simp [kbGet, hk, ih h]

theorem kbSet_get_self (kb : KB) (n : String) (h : kbHasKey kb n = true) :
    kbSet kb n (kbGet kb n) = kb := by
  induction kb with
  | nil => simp [kbHasKey] at h
  | cons p t ih =>
    obtain ⟨k, w⟩ := p
    by_cases hk : k = n
    · subst hk
      simp [kbSet, kbGet]
    · simp only [kbHasKey, if_neg hk] at h
      simp [kbSet, kbGet, hk, ih h]

theorem mem_sinsert (x y : String) (s : VSet) :
    x ∈ sinsert y s ↔ x = y ∨ x ∈ s := by
  unfold sinsert
  by_cases h : y ∈ s
  · simp only [if_pos h]
    constructor
    · exact Or.inr
    · rintro (rfl | hx)
      · exact h
      · exact hx
  · simp only [if_neg h, List.mem_append, List.mem_singleton]
    tauto

theorem mem_sunion (x : String) (s t : VSet) :
    x ∈ sunion s t ↔ x ∈ s ∨ x ∈ t := by
  induction t generalizing s with
  | nil => simp [sunion]
  | cons y t ih =>
    simp only [sunion, List.foldl_cons] at *
    rw [ih (sinsert y s), mem_sinsert]
    simp only [List.mem_cons]
    tauto

theorem sunion_subset_left (x : String) (s t : VSet) (h : x ∈ s) :
    x ∈ sunion s t :=
  (mem_sunion x s t).mpr (Or.inl h)

theorem sunion_eq_self (s t : VSet) (h : ∀ x ∈ t, x ∈ s) :
    sunion s t = s := by
  induction t generalizing s with
  | nil => rfl
  | cons y t ih =>
    simp only [sunion, List.foldl_cons]
    have hy : y ∈ s := h y (List.mem_cons_self y t)
    rw [show sinsert y s = s from by simp [sinsert, hy]]
    exact ih s (fun x hx => h x (List.mem_cons_of_mem y hx))

theorem rowGet_rowSet_self (r : RowMap) (k v : String) :
    rowGet (rowSet r k v) k = v := by
  induction r with
  | nil => simp [rowSet, rowGet]
  | cons p t ih =>
    obtain ⟨k', w⟩ := p
    by_cases h : k' = k
    · simp [rowSet, rowGet, h]
    · simp [rowSet, rowGet, h, ih]

theorem rowGet_rowSet_ne (r : RowMap) (k m v : String) (h : m ≠ k) :
    rowGet (rowSet r k v) m = rowGet r m := by
  have hnm : k ≠ m := Ne.symm h
  induction r with
  | nil => simp [rowSet, rowGet, hnm]
  | cons p t ih =>
    obtain ⟨k', w⟩ := p
    by_cases hk : k' = k
    · subst hk
      simp [rowSet, rowGet, hnm]
    · simp only [rowSet, if_neg hk, rowGet]
      by_cases hm : k' = m
      · simp [hm]
      · simp [hm, ih]

theorem rowSet_rowSet_self (r : RowMap) (k v w : String) :
    rowSet (rowSet r k v) k w = rowSet r k w := by
  induction r with
  | nil => simp [rowSet]
  | cons p t ih =>
    obtain ⟨k', u⟩ := p
    by_cases h : k' = k
    · simp [rowSet, h]
    · simp [rowSet, h, ih]

/-! ## Idempotence machinery for the harvest merge -/

theorem kbGet_ensure (kb : KB) (n k : String) :
    kbGet (if kbHasKey kb n then kb else kbSet kb n []) k = kbGet kb k := by
  by_cases h : kbHasKey kb n = true
  · simp [h]
  · rw [Bool.not_eq_true] at h
    simp only [h, Bool.false_eq_true, if_false]
    by_cases hk : k = n
    · subst hk
      rw [kbGet_kbSet_self, kbGet_eq_nil_of_not_hasKey kb k h]
    · exact kbGet_kbSet_ne kb n k [] hk

theorem kbHasKey_ensure (kb : KB) (n k : String) (h : kbHasKey kb k = true) :
    kbHasKey (if kbHasKey kb n then kb else kbSet kb n []) k = true := by
  by_cases hn : kbHasKey kb n = true
  · simp [hn, h]
  · rw [Bool.not_eq_true] at hn
    simp only [hn, Bool.false_eq_true, if_false]
    exact kbHasKey_kbSet kb n k [] h

theorem kbGet_mergeStep (kb : KB) (n : String) (p : VSet) (k : String) :
    kbGet (mergeStep kb (n, p)) k =
      if k = n then sunion (kbGet kb n) (survivors kb n p) else kbGet kb k := by
  simp only [mergeStep, mergeIntoKB, survivors, kbGet_ensure]
  by_cases hk : k = n
  · subst hk
    rw [if_pos rfl, kbGet_kbSet_self]
  · rw [if_neg hk, kbGet_kbSet_ne _ _ _ _ hk, kbGet_ensure]

theorem kbHasKey_mergeStep_self (kb : KB) (s : String × VSet) :
    kbHasKey (mergeStep kb s) s.1 = true := by
  obtain ⟨n, p⟩ := s
  simp only [mergeStep, mergeIntoKB]
  exact kbHasKey_kbSet_self _ _ _

theorem kbHasKey_mergeStep_mono (kb : KB) (s : String × VSet) (k : String)
    (h : kbHasKey kb k = true) : kbHasKey (mergeStep kb s) k = true := by
  obtain ⟨n, p⟩ := s
  simp only [mergeStep, mergeIntoKB]
  exact kbHasKey_kbSet _ _ _ _ (kbHasKey_ensure kb n k h)

theorem mem_kbGet_mergeStep (kb : KB) (s : String × VSet) (k x : String)
    (h : x ∈ kbGet kb k) : x ∈ kbGet (mergeStep kb s) k := by
  obtain ⟨n, p⟩ := s
  rw [kbGet_mergeStep]
  by_cases hk : k = n
  · subst hk
    rw [if_pos rfl]
    exact sunion_subset_left x _ _ h
  · rw [if_neg hk]
    exact h

theorem absorbed_mergeStep_self (kb : KB) (s : String × VSet) :
    Absorbed (mergeStep kb s) s := by
  obtain ⟨n, p⟩ := s
  refine ⟨kbHasKey_mergeStep_self kb (n, p), ?_⟩
  intro v hv
  by_cases hstd : n = "标准"
  · subst hstd
    by_cases hkill : ((kbGet kb "标准").any (fun e => strContains v e)) = true
    · right
      refine ⟨rfl, ?_⟩
      obtain ⟨e, he, hce⟩ := List.any_eq_true.mp hkill
      exact ⟨e, mem_kbGet_mergeStep kb _ _ e he, hce⟩
    · left
      show v ∈ kbGet (mergeStep kb ("标准", p)) "标准"
      rw [kbGet_mergeStep, if_pos rfl]
      apply (mem_sunion v _ _).mpr
      right
      simp only [survivors, if_pos rfl, List.mem_filter]
      rw [Bool.not_eq_true] at hkill
      simp [hv, hkill]
  · left
    show v ∈ kbGet (mergeStep kb (n, p)) n
    rw [kbGet_mergeStep, if_pos rfl]
    apply (mem_sunion v _ _).mpr
    right
    simp only [survivors, if_neg hstd]
    exact hv

theorem absorbed_mono (kb : KB) (s s' : String × VSet) (h : Absorbed kb s) :
    Absorbed (mergeStep kb s') s := by
  obtain ⟨hk, hv⟩ := h
  refine ⟨kbHasKey_mergeStep_mono kb s' s.1 hk, ?_⟩
  intro v hmem
  rcases hv v hmem with hin | ⟨hstd, e, he, hce⟩
  · exact Or.inl (mem_kbGet_mergeStep kb s' s.1 v hin)
  · exact Or.inr ⟨hstd, e, mem_kbGet_mergeStep kb s' "标准" e he, hce⟩

theorem absorbed_foldl (L : List (String × VSet)) (kb : KB) (s : String × VSet)
    (h : Absorbed kb s) : Absorbed (L.foldl mergeStep kb) s := by
  induction L generalizing kb with
  | nil => exact h
  | cons a t ih => exact ih (mergeStep kb a) (absorbed_mono kb s a h)

theorem mergeStep_eq_of_absorbed (kb : KB) (s : String × VSet)
    (h : Absorbed kb s) : mergeStep kb s = kb := by
  obtain ⟨n, p⟩ := s
  obtain ⟨hk, hv⟩ := h
  have hsub : ∀ x ∈ (if n = "标准" then
      p.filter (fun v => !(kbGet kb "标准").any (fun e => strContains v e))
      else p), x ∈ kbGet kb n := by
    intro x hx
    by_cases hstd : n = "标准"
    · subst hstd
      rw [if_pos rfl, List.mem_filter] at hx
      obtain ⟨hxp, hnk⟩ := hx
      rcases hv x hxp with hin | ⟨-, e, he, hce⟩
      · exact hin
      · exfalso
        have : (kbGet kb "标准").any (fun e => strContains x e) = true :=
          List.any_eq_true.mpr ⟨e, he, hce⟩
        rw [this] at hnk
        exact absurd hnk (by decide)
    · rw [if_neg hstd] at hx
      rcases hv x hx with hin | ⟨hstd2, -⟩
      · exact hin
      · exact absurd hstd2 hstd
  simp only [mergeStep, mergeIntoKB, hk, if_true, kbGet_ensure]
  rw [sunion_eq_self _ _ hsub]
  exact kbSet_get_self kb n hk

theorem absorbed_all (L : List (String × VSet)) (kb : KB) :
    ∀ s ∈ L, Absorbed (L.foldl mergeStep kb) s := by
  induction L generalizing kb with
  | nil =>
    intro s hs
    cases hs
  | cons a t ih =>
    intro s hs
    rw [List.foldl_cons]
    rcases List.mem_cons.mp hs with rfl | hs'
    · exact absorbed_foldl t (mergeStep kb s) s (absorbed_mergeStep_self kb s)
    · exact ih (mergeStep kb a) s hs'

theorem foldl_mergeStep_fix (L : List (String × VSet)) (kb : KB)
    (h : ∀ s ∈ L, Absorbed kb s) : L.foldl mergeStep kb = kb := by
  induction L with
  | nil => rfl
  | cons a t ih =>
    rw [List.foldl_cons, mergeStep_eq_of_absorbed kb a (h a (List.mem_cons_self a t))]
    exact ih (fun s hs => h s (List.mem_cons_of_mem a hs))

theorem foldl_mergeStep_idem (L : List (String × VSet)) (kb : KB) :
    L.foldl mergeStep (L.foldl mergeStep kb) = L.foldl mergeStep kb :=
  foldl_mergeStep_fix L _ (absorbed_all L kb)

theorem harvestColumns_eq_foldl (kws wl : List String) (names : List String)
    (dataDf : Table) (kb : KB) :
    harvestColumns kws wl names dataDf kb =
      (colSteps kws wl names dataDf).foldl mergeStep kb := by
  unfold harvestColumns colSteps
  generalize names.enum = l
  induction l generalizing kb with
  | nil => rfl
  | cons a t ih =>
    rw [List.foldl_cons, List.filterMap_cons]
    by_cases h1 : tableWidth dataDf ≤ a.1
    · simp only [if_pos h1]
      exact ih kb
    · simp only [if_neg h1]
      by_cases h2 : shouldSkipColumnH kws a.2 = true
      · simp only [h2, if_true]
        exact ih kb
      · rw [Bool.not_eq_true] at h2
        simp only [h2, Bool.false_eq_true, if_false]
        by_cases h3 : isInWhiteList wl a.2 = true
        · simp only [h3, Bool.not_true, Bool.false_eq_true, if_false, List.foldl_cons]
          exact ih (mergeIntoKB kb a.2 (processColumnCells (colCells dataDf a.1)))
        · rw [Bool.not_eq_true] at h3
          simp only [h3, Bool.not_false, if_true]
          exact ih kb

theorem goSheets_eq_foldl (kws wl : List String) (sheets : List Table)
    (idxs : List Nat) (kb : KB) :
    goSheets kws wl sheets idxs kb =
      (goSheetSteps kws wl sheets idxs).foldl mergeStep kb := by
  induction idxs generalizing kb with
  | nil => rfl
  | cons i rest ih =>
    simp only [goSheets, goSheetSteps]
    by_cases h1 : (sheets.getD i []).isEmpty = true
    · simp only [h1, if_true]
      rfl
    · rw [Bool.not_eq_true] at h1
      simp only [h1, Bool.false_eq_true, if_false]
      by_cases h2 : (sheets.getD i []).length ≤ findHeaderRow (sheets.getD i []) + 1
      · simp only [if_pos h2]
        rfl
      · simp only [if_neg h2]
        rw [List.foldl_append, ← harvestColumns_eq_foldl]
        exact ih _

theorem processExcelFileH_eq_foldl (kws wl : List String) (sheets : List Table)
    (kb : KB) :
    processExcelFileH kws wl sheets kb =
      (goSheetSteps kws wl sheets (List.range sheets.length)).foldl mergeStep kb :=
  goSheets_eq_foldl kws wl sheets _ kb

/-! ## Decomposer lemmas -/

theorem stepCol_best (score : String → String → Nat) (tok : String) (st : RowSt)
    (c : String × List String) : (stepCol score tok st c).best = st.best := by
  obtain ⟨name, values⟩ := c
  simp only [stepCol]
  by_cases h : name = "标准" ∨ name = "材质"
  · simp only [if_pos h]
    cases values.find? (fun v => strContains (pyLower tok) (pyLower v)) <;> rfl
  · simp only [if_neg h]
    by_cases h2 : 80 ≤ bestScore score tok values ∧ st.best < bestScore score tok values
    · simp only [if_pos h2]
    · simp only [if_neg h2]

theorem foldl_stepCol_best (score : String → String → Nat) (tok : String)
    (kb : List (String × List String)) (st : RowSt) :
    (kb.foldl (stepCol score tok) st).best = st.best := by
  induction kb generalizing st with
  | nil => rfl
  | cons c t ih => rw [List.foldl_cons, ih, stepCol_best]

theorem stepCol_generic (score : String → String → Nat) (tok : String) (st : RowSt)
    (n : String) (vs : List String)
    (h1 : n ≠ "名称") (h2 : n ≠ "标准") (h3 : n ≠ "材质") (hb : st.best = 0) :
    (stepCol score tok st (n, vs)).row =
      (if 80 ≤ bestScore score tok vs then
        rowSet st.row n (joinTok (rowGet st.row n) tok)
      else st.row) := by
  simp only [stepCol, if_neg h1, if_neg (not_or.mpr ⟨h2, h3⟩)]
  by_cases hm : 80 ≤ bestScore score tok vs
  · have hc : 80 ≤ bestScore score tok vs ∧ st.best < bestScore score tok vs :=
      ⟨hm, by omega⟩
    simp only [if_pos hc, if_pos hm, if_neg h1]
  · have hc : ¬(80 ≤ bestScore score tok vs ∧ st.best < bestScore score tok vs) := by
      tauto
    simp only [if_neg hc, if_neg hm]

theorem rowGet_nameFold (vs : List String) (r : RowMap) (tok k : String)
    (hk : k ≠ "名称") :
    rowGet (vs.foldl (fun r v => rowSet r "名称" (nameUpd tok (rowGet r "名称") v)) r) k
      = rowGet r k := by
  induction vs generalizing r with
  | nil => rfl
  | cons v t ih => rw [List.foldl_cons, ih, rowGet_rowSet_ne _ _ _ _ hk]

theorem rowGet_nameFold_self (vs : List String) (r : RowMap) (tok : String) :
    rowGet (vs.foldl (fun r v => rowSet r "名称" (nameUpd tok (rowGet r "名称") v)) r) "名称"
      = vs.foldl (nameUpd tok) (rowGet r "名称") := by
  induction vs generalizing r with
  | nil => rfl
  | cons v t ih =>
    rw [List.foldl_cons, List.foldl_cons, ih, rowGet_rowSet_self]

theorem nameUpd_length_mono (tok cur v : String) :
    cur.length ≤ (nameUpd tok cur v).length := by
  unfold nameUpd
  by_cases h : strContains (pyLower tok) (pyLower v) = true
  · rw [if_pos h]
    by_cases h2 : cur = "" ∨ cur.length ≤ v.length
    · rw [if_pos h2]
      rcases h2 with rfl | h2
      · simp
      · exact h2
    · rw [if_neg h2]
  · rw [if_neg h]

theorem foldl_nameUpd_length_mono (vs : List String) (tok cur : String) :
    cur.length ≤ (vs.foldl (nameUpd tok) cur).length := by
  induction vs generalizing cur with
  | nil => exact le_refl _
  | cons v t ih => exact le_trans (nameUpd_length_mono tok cur v) (ih _)

theorem foldl_nameUpd_longest (vs : List String) (tok cur : String) :
    ∀ v ∈ vs, strContains (pyLower tok) (pyLower v) = true →
      v.length ≤ (vs.foldl (nameUpd tok) cur).length := by
  induction vs generalizing cur with
  | nil =>
    intro v hv
    cases hv
  | cons w t ih =>
    intro v hv hc
    rw [List.foldl_cons]
    rcases List.mem_cons.mp hv with rfl | hv'
    · refine le_trans ?_ (foldl_nameUpd_length_mono t tok _)
      unfold nameUpd
      rw [if_pos hc]
      by_cases h2 : cur = "" ∨ cur.length ≤ v.length
      · rw [if_pos h2]
      · rw [if_neg h2]
        push_neg at h2
        omega
    · exact ih _ v hv' hc

theorem foldl_nameUpd_mem (vs : List String) (tok cur : String) :
    vs.foldl (nameUpd tok) cur = cur ∨ vs.foldl (nameUpd tok) cur ∈ vs := by
  induction vs generalizing cur with
  | nil => exact Or.inl rfl
  | cons w t ih =>
    rw [List.foldl_cons]
    rcases ih (nameUpd tok cur w) with h | h
    · rw [h]
      unfold nameUpd
      by_cases hc : strContains (pyLower tok) (pyLower w) = true
      · rw [if_pos hc]
        by_cases h2 : cur = "" ∨ cur.length ≤ w.length
        · rw [if_pos h2]
          exact Or.inr (List.mem_cons_self w t)
        · rw [if_neg h2]
          exact Or.inl rfl
      · rw [if_neg hc]
        exact Or.inl rfl
    · exact Or.inr (List.mem_cons_of_mem w h)

theorem processToken_nameOnly (score : String → String → Nat) (vs : List String)
    (r : RowMap) (tok : String)
    (hs : bestScore score tok vs < 80)
    (hg : (pyFloatOk tok || tok == "" || tok == "-") = false) :
    processToken score [("名称", vs)] r tok =
      rowSet (vs.foldl (fun r v => rowSet r "名称" (nameUpd tok (rowGet r "名称") v)) r)
        "备注" (joinTok (rowGet r "备注") tok) := by
  simp only [processToken, hg, Bool.false_eq_true, if_false, List.foldl_cons,
    List.foldl_nil]
  simp only [stepCol, if_pos rfl,
    if_neg (show ¬(("名称" : String) = "标准" ∨ ("名称" : String) = "材质") by decide),
    if_neg (show ¬(80 ≤ bestScore score tok vs ∧ (0 : Nat) < bestScore score tok vs) by omega)]
  simp only [if_true, Bool.false_eq_true, if_false]
  rw [rowGet_nameFold vs r tok "备注" (by decide)]

/-! ## Header-locator lemmas -/

theorem find?_congr_list {α : Type} (l : List α) (p q : α → Bool)
    (h : ∀ x ∈ l, p x = q x) : l.find? p = l.find? q := by
  induction l with
  | nil => rfl
  | cons a t ih =>
    simp only [List.find?]
    rw [h a (List.mem_cons_self a t)]
    cases hq : q a
    · exact ih (fun x hx => h x (List.mem_cons_of_mem a hx))
    · rfl

theorem take_getD (t : Table) (c i : Nat) (h : i < c) :
    (t.take c).getD i [] = t.getD i [] := by
  rw [List.getD_eq_getElem?_getD, List.getD_eq_getElem?_getD,
    List.getElem?_take_of_lt h]

theorem isHeaderRow_take_eq (t : Table) (i : Nat)
    (hi : i < min 10 t.length - 1) :
    isHeaderRow (t.take (min 10 t.length)) i =
      (decide (2 * ((dropna (t.getD i [])).filter Cell.isText).length
          > (dropna (t.getD i [])).length)
        && decide ((dropna (t.getD (i + 1) [])).length > 0)) := by
  have hlen : (t.take (min 10 t.length)).length = min 10 t.length := by
    rw [List.length_take]
    omega
  simp only [isHeaderRow, hlen]
  rw [if_neg (show ¬(i + 1 ≥ min 10 t.length) by omega)]
  rw [take_getD t _ i (by omega), take_getD t _ (i + 1) (by omega)]
  by_cases hne : (dropna (t.getD i [])).length = 0
  · rw [if_pos hne]
    have hzero : ((dropna (t.getD i [])).filter Cell.isText).length = 0 := by
      have hle : ((dropna (t.getD i [])).filter Cell.isText).length
          ≤ (dropna (t.getD i [])).length := List.length_filter_le _ _
      omega
    rw [hzero, hne]
    rfl
  · rw [if_neg hne]

/-! ## Claim theorems

Each claim of the specification audit is settled by exactly one theorem
below (plus, where required, a closed counterexample and a closed witness). -/

/-- C1 (amended): in the generic classification branch the comparison
against the best-so-far score never constrains anything, because
`best_match_score` stays 0 through the whole column loop (first conjunct);
consequently a generic column's field receives the token if and only if the
best candidate score reaches the cutoff 80 — every generic column clearing
the cutoff is assigned, independently of the scores of other columns, and a
score of exactly 80 is accepted (second conjunct). -/
theorem claim1_generic_threshold (score : String → String → Nat) (tok : String)
    (kb : List (String × List String)) (r : RowMap) (b : Bool)
    (n : String) (vs : List String)
    (h1 : n ≠ "名称") (h2 : n ≠ "标准") (h3 : n ≠ "材质") :
    (kb.foldl (stepCol score tok) ⟨r, b, 0⟩).best = 0
    ∧ (stepCol score tok ⟨r, b, 0⟩ (n, vs)).row =
        (if 80 ≤ bestScore score tok vs then
          rowSet r n (joinTok (rowGet r n) tok)
        else r) :=
  ⟨foldl_stepCol_best score tok kb ⟨r, b, 0⟩,
   stepCol_generic score tok ⟨r, b, 0⟩ n vs h1 h2 h3 rfl⟩

/-- Witness for C1: a concrete instantiation of the amended theorem. -/
theorem claim1_witness :
    (("ColA" : String) ≠ "名称" ∧ ("ColA" : String) ≠ "标准" ∧ ("ColA" : String) ≠ "材质")
    ∧ (([(("ColB" : String), ["y"])].foldl (stepCol (fun _ _ => 90) "t")
          ⟨[], false, 0⟩).best = 0
       ∧ (stepCol (fun _ _ => 90) "t" ⟨[], false, 0⟩ ("ColA", ["x"])).row =
           (if 80 ≤ bestScore (fun _ _ => 90) "t" ["x"] then
             rowSet [] "ColA" (joinTok (rowGet [] "ColA") "t")
           else [])) :=
  ⟨by decide,
   claim1_generic_threshold (fun _ _ => 90) "t" [("ColB", ["y"])] [] false
     "ColA" ["x"] (by decide) (by decide) (by decide)⟩

/-- Counterexample for C1 as stated: with genuine `token_sort_ratio` values,
column `ColA` scores 100 for the token, yet `ColB` (best score 95, which does
not exceed the best score 100 found at `ColA`) and `ColC` (best score exactly
80, which does not exceed the threshold 80) also get the token assigned. -/
theorem claim1_counterexample :
    rowGet (decompose scoreC1 kbC1 "alpha beta") "ColA" = "alpha beta"
    ∧ rowGet (decompose scoreC1 kbC1 "alpha beta") "ColB" = "alpha beta"
    ∧ rowGet (decompose scoreC1 kbC1 "alpha beta") "ColC" = "alpha beta"
    ∧ scoreC1 "alpha beta" "alpha beta" = 100
    ∧ scoreC1 "alpha beta" "alpha betta" = 95
    ∧ bestScore scoreC1 "alpha beta" ["alpha bexx"] = 80 := by
  decide

/-- C2 (amended): the split with more tokens is used; on a tie the
*semicolon* split is the one kept (`split1 if len(split1) > len(split2) else
split2`). -/
theorem claim2_split_tiebreak (s : String) :
    ((pySplit s ';').length < (pySplit s ',').length → rawSplit s = pySplit s ',')
    ∧ ((pySplit s ',').length ≤ (pySplit s ';').length → rawSplit s = pySplit s ';') := by
  constructor
  · intro h
    simp only [rawSplit]
    rw [if_pos h]
  · intro h
    simp only [rawSplit]
    rw [if_neg (by omega)]

/-- Witness for C2: the tie case at `"a,b;c"`. -/
theorem claim2_witness :
    (pySplit "a,b;c" ',').length ≤ (pySplit "a,b;c" ';').length
    ∧ rawSplit "a,b;c" = pySplit "a,b;c" ';' :=
  ⟨by decide, (claim2_split_tiebreak "a,b;c").2 (by decide)⟩

/-- Counterexample for C2 as stated: on `"a,b;c"` both splits have two
tokens, and the code keeps the semicolon split, not the claimed comma
split. -/
theorem claim2_counterexample :
    (pySplit "a,b;c" ',').length = (pySplit "a,b;c" ';').length
    ∧ rawSplit "a,b;c" = ["a,b", "c"]
    ∧ rawSplit "a,b;c" ≠ pySplit "a,b;c" ',' := by
  decide

/-- C3 evaluation at the failing input: a two-sheet file whose sheets carry
values `AAA` (sheet 0) and `BBB` (sheet 1) under the whitelisted column
`材质`.  Because the sheet loop re-reads its data frame from sheet 0
(line 195: `sheet_name=0`), sheet 1's value `BBB` is never harvested. -/
theorem claim3_sheet_reread :
    processExcelFileH [] ["材质"] [sheetC3a, sheetC3b] [] = [("材质", ["AAA"])]
    ∧ "BBB" ∉ kbGet (processExcelFileH [] ["材质"] [sheetC3a, sheetC3b] []) "材质" := by
  decide

/-- C4 (confirmed): merging a value `v` into the `标准` category discards it
whenever an existing canonical value is a substring of `v`, leaving the
stored set unchanged; concretely, existing `A312` absorbs new `ASTM A312`;
and the discard does not apply to another column such as `材质`, where both
values are retained. -/
theorem claim4_subsumption (S : VSet) (v : String)
    (h : ∃ e ∈ S, strContains v e = true) :
    mergeIntoKB [("标准", S)] "标准" [v] = [("标准", S)]
    ∧ mergeIntoKB [("标准", ["A312"])] "标准" ["ASTM A312"] = [("标准", ["A312"])]
    ∧ mergeIntoKB [("材质", ["A312"])] "材质" ["ASTM A312"]
        = [("材质", ["A312", "ASTM A312"])] := by
  refine ⟨?_, by decide, by decide⟩
  have hany : S.any (fun e => strContains v e) = true :=
    List.any_eq_true.mpr (by obtain ⟨e, he, hc⟩ := h; exact ⟨e, he, hc⟩)
  simp [mergeIntoKB, kbHasKey, kbGet, kbSet, hany, sunion]

/-- Witness for C4: the `A312` / `ASTM A312` instance of the general part. -/
theorem claim4_witness :
    (∃ e ∈ (["A312"] : VSet), strContains "ASTM A312" e = true)
    ∧ mergeIntoKB [("标准", ["A312"])] "标准" ["ASTM A312"] = [("标准", ["A312"])] :=
  ⟨by decide, (claim4_subsumption ["A312"] "ASTM A312" (by decide)).1⟩

/-- C5 (amended): what the merge actually guarantees is one-directional and
only against values present *before* the batch: every value it adds to the
`标准` category contains no previously stored value as a substring.  Values
arriving in the same batch are never compared with each other. -/
theorem claim5_merge_additions (S batch : VSet) (v : String)
    (hv : v ∈ kbGet (mergeIntoKB [("标准", S)] "标准" batch) "标准") :
    v ∈ S ∨ (v ∈ batch ∧ ∀ e ∈ S, strContains v e = false) := by
  simp only [mergeIntoKB, kbHasKey, if_pos rfl, if_true, kbGet, kbSet] at hv
  rcases (mem_sunion v _ _).mp hv with hin | hfil
  · exact Or.inl hin
  · rw [List.mem_filter] at hfil
    obtain ⟨hb, hp⟩ := hfil
    refine Or.inr ⟨hb, ?_⟩
    intro e he
    rw [Bool.not_eq_true'] at hp
    rcases hc : strContains v e with _ | _
    · rfl
    · exfalso
      have : S.any (fun e => strContains v e) = true :=
        List.any_eq_true.mpr ⟨e, he, hc⟩
      rw [this] at hp
      cases hp

/-- Witness for C5's amended theorem at a concrete instance. -/
theorem claim5_witness :
    ("XY" ∈ kbGet (mergeIntoKB [("标准", ["A312"])] "标准" ["XY"]) "标准")
    ∧ ("XY" ∈ (["A312"] : VSet)
       ∨ ("XY" ∈ (["XY"] : VSet) ∧ ∀ e ∈ (["A312"] : VSet), strContains "XY" e = false)) :=
  ⟨by decide, claim5_merge_additions ["A312"] ["XY"] "XY" (by decide)⟩

/-- Counterexample for C5 as stated: harvesting one sheet whose `标准`
column carries `A312` and `ASTM A312` in the same batch retains both, and one
is a strict substring of the other — the claimed invariant fails within a
batch. -/
theorem claim5_counterexample :
    "A312" ∈ kbGet (processExcelFileH [] ["标准"] [sheetC5] []) "标准"
    ∧ "ASTM A312" ∈ kbGet (processExcelFileH [] ["标准"] [sheetC5] []) "标准"
    ∧ strContains "ASTM A312" "A312" = true
    ∧ ("A312" : String) ≠ "ASTM A312" := by
  decide

/-- C6 (amended): the `extact2` variants' header locator satisfies the
claimed contract exactly — it returns the first row index in the window
`0 .. min(10, row_count) - 2` whose non-empty cells are more than half text
and whose successor row is non-empty, else 0.  (The `extract1` variant does
not; see the counterexample.) -/
theorem claim6_extact2_meets_contract (t : Table) :
    findHeaderRow t = locateSpec t := by
  simp only [findHeaderRow, locateSpec]
  rw [find?_congr_list (List.range (min 10 t.length - 1)) _ _
    (fun i hi => isHeaderRow_take_eq t i (List.mem_range.mp hi))]

/-- Counterexample for C6 as stated about `extract1-可用.py`: on a 12-row
table whose only header-like row is row 9 — the last row of the 10-row
window, which the claim excludes — `extract1`'s locator returns 9 (its scan
range is `range(min(10, len(df) - 1))`, and its qualification test reads row
10, outside the window), while the claimed contract returns 0. -/
theorem claim6_counterexample :
    findHeaderRow1 tableC6 = 9
    ∧ locateSpec tableC6 = 0
    ∧ findHeaderRow tableC6 = 0 := by
  decide

/-- C7 (confirmed): harvesting the same single-sheet table twice into a
knowledge base that started empty yields exactly the same finalized
(sorted, empty-column-pruned) per-column value sets as harvesting it once.
The second pass is absorbed: every batch value is either already stored or
still killed by the same `标准` containment filter. -/
theorem claim7_harvest_idempotent (kws wl : List String) (t : Table) :
    finalizeKB (processExcelFileH kws wl [t] (processExcelFileH kws wl [t] []))
      = finalizeKB (processExcelFileH kws wl [t] []) := by
  simp only [processExcelFileH_eq_foldl]
  rw [foldl_mergeStep_idem]

/-- C8 (amended): acceptance by the name-category substring rule does *not*
mark the token as matched (`is_match` is untouched on that path); whenever
the fuzzy score over the name column's candidates stays below the cutoff —
and no other column matches — the token is still appended to the remainder
field `备注`. -/
theorem claim8_name_rule_not_matching (score : String → String → Nat)
    (vs : List String) (r : RowMap) (tok : String)
    (hs : bestScore score tok vs < 80)
    (hg : (pyFloatOk tok || tok == "" || tok == "-") = false) :
    rowGet (processToken score [("名称", vs)] r tok) "备注"
      = joinTok (rowGet r "备注") tok := by
  rw [processToken_nameOnly score vs r tok hs hg, rowGet_rowSet_self]

/-- Witness for C8's amended theorem at the `Valve Special` fixture. -/
theorem claim8_witness :
    bestScore scoreC8 "Valve Special" ["Valve"] < 80
    ∧ (pyFloatOk "Valve Special" || "Valve Special" == "" || "Valve Special" == "-") = false
    ∧ rowGet (processToken scoreC8 [("名称", ["Valve"])]
          (initRow kbC8 "Valve Special") "Valve Special") "备注"
        = joinTok (rowGet (initRow kbC8 "Valve Special") "备注") "Valve Special" :=
  ⟨by decide, by decide,
   claim8_name_rule_not_matching scoreC8 ["Valve"] (initRow kbC8 "Valve Special")
     "Valve Special" (by decide) (by decide)⟩

/-- Counterexample for C8 as stated: token `Valve Special` is accepted by the
name rule (the name field holds `Valve`), its genuine `token_sort_ratio`
against the sole name candidate is 56 < 80, no other column exists — and the
token ends up in the remainder field anyway. -/
theorem claim8_counterexample :
    rowGet (decompose scoreC8 kbC8 "Valve Special") "名称" = "Valve"
    ∧ rowGet (decompose scoreC8 kbC8 "Valve Special") "备注" = "Valve Special"
    ∧ scoreC8 "Valve Special" "Valve" = 56 := by
  decide

/-- C9 (amended): `should_skip_column` returns `False` — not `True` — for a
blank column name in both variants; for non-blank names the `自动拆分`
variant skips exactly on a keyword hit and the harvesting variant skips on a
keyword hit or on the absence of Chinese characters. -/
theorem claim9_blank_not_skipped (kws : List String) (n : String) (hn : n ≠ "") :
    shouldSkipColumnH kws "" = false
    ∧ shouldSkipColumnA kws "" = false
    ∧ shouldSkipColumnA kws n = kws.any (fun k => strContains (pyLower n) (pyLower k))
    ∧ shouldSkipColumnH kws n =
        (kws.any (fun k => strContains (pyLower n) (pyLower k)) || !containsChinese n) := by
  refine ⟨by simp [shouldSkipColumnH], by simp [shouldSkipColumnA],
    by simp [shouldSkipColumnA, hn], ?_⟩
  simp only [shouldSkipColumnH, if_neg hn]
  by_cases h : kws.any (fun k => strContains (pyLower n) (pyLower k)) = true
  · simp [h]
  · rw [Bool.not_eq_true] at h
    simp only [h, Bool.false_eq_true, if_false, Bool.false_or]
    by_cases h2 : containsChinese n = true
    · simp [h2]
    · rw [Bool.not_eq_true] at h2
      simp [h2]

/-- Witness for C9's amended theorem. -/
theorem claim9_witness :
    (("ab" : String) ≠ "")
    ∧ (shouldSkipColumnH ["X"] "" = false
       ∧ shouldSkipColumnA ["X"] "" = false
       ∧ shouldSkipColumnA ["X"] "ab"
           = (["X"].any (fun k => strContains (pyLower "ab") (pyLower k)))
       ∧ shouldSkipColumnH ["X"] "ab"
           = ((["X"].any (fun k => strContains (pyLower "ab") (pyLower k)))
              || !containsChinese "ab")) :=
  ⟨by decide, claim9_blank_not_skipped ["X"] "ab" (by decide)⟩

/-- Counterexample for C9 as stated: the empty (blank) column name is *not*
skipped by either variant — `should_skip_column` returns `False` on it even
with a configured keyword list. -/
theorem claim9_counterexample :
    shouldSkipColumnH ["X"] "" = false ∧ shouldSkipColumnA ["X"] "" = false := by
  decide

/-- C10 (amended): as long as the fuzzy score of the token over the name
column's candidates stays below the cutoff 80, the name field ends holding
the longest substring-accepted candidate: every accepted candidate is no
longer than the final field value, and the final value is either the
previous field content or one of the candidates.  (When the fuzzy score
reaches 80 the generic branch overwrites the field with the whole token —
see the counterexample.) -/
theorem claim10_longest_without_fuzzy (score : String → String → Nat)
    (vs : List String) (r : RowMap) (tok : String)
    (hs : bestScore score tok vs < 80)
    (hg : (pyFloatOk tok || tok == "" || tok == "-") = false) :
    (∀ v ∈ vs, strContains (pyLower tok) (pyLower v) = true →
        v.length ≤ (rowGet (processToken score [("名称", vs)] r tok) "名称").length)
    ∧ (rowGet (processToken score [("名称", vs)] r tok) "名称" = rowGet r "名称"
       ∨ rowGet (processToken score [("名称", vs)] r tok) "名称" ∈ vs) := by
  have hrow : rowGet (processToken score [("名称", vs)] r tok) "名称"
      = vs.foldl (nameUpd tok) (rowGet r "名称") := by
    rw [processToken_nameOnly score vs r tok hs hg,
      rowGet_rowSet_ne _ _ _ _ (by decide), rowGet_nameFold_self]
  rw [hrow]
  exact ⟨foldl_nameUpd_longest vs tok _, foldl_nameUpd_mem vs tok _⟩

/-- Witness for C10's amended theorem at a concrete instance. -/
theorem claim10_witness :
    bestScore scoreZero "xabx" ["ab"] < 80
    ∧ ((∀ v ∈ (["ab"] : List String), strContains (pyLower "xabx") (pyLower v) = true →
          v.length ≤ (rowGet (processToken scoreZero [("名称", ["ab"])]
              (initRow [("名称", ["ab"])] "xabx") "xabx") "名称").length)
       ∧ (rowGet (processToken scoreZero [("名称", ["ab"])]
              (initRow [("名称", ["ab"])] "xabx") "xabx") "名称"
            = rowGet (initRow [("名称", ["ab"])] "xabx") "名称"
          ∨ rowGet (processToken scoreZero [("名称", ["ab"])]
              (initRow [("名称", ["ab"])] "xabx") "xabx") "名称" ∈ (["ab"] : List String))) :=
  ⟨by decide,
   claim10_longest_without_fuzzy scoreZero ["ab"] (initRow [("名称", ["ab"])] "xabx")
     "xabx" (by decide) (by decide)⟩

/-- Counterexample for C10 as stated: on the claim's own example — token
`Stainless Steel 316L`, name candidates `Steel` and `Stainless Steel` — the
name field ends holding the whole token, not the longest candidate
`Stainless Steel`: both candidates are substring-accepted, but the generic
fuzzy branch also scores the name column (genuine `token_sort_ratio` 86 ≥ 80
for `Stainless Steel`) and overwrites the field with the token. -/
theorem claim10_counterexample :
    rowGet (decompose scoreC10 kbC10 "Stainless Steel 316L") "名称"
      = "Stainless Steel 316L"
    ∧ strContains (pyLower "Stainless Steel 316L") (pyLower "Stainless Steel") = true
    ∧ strContains (pyLower "Stainless Steel 316L") (pyLower "Steel") = true
    ∧ scoreC10 "Stainless Steel 316L" "Stainless Steel" = 86
    ∧ ("Stainless Steel 316L" : String) ≠ "Stainless Steel" := by
  decide

end InquirySplit
